import Mathlib

/-!
Verification development for the `spanner-mcp` repository.

The core under verification is the query-plan tree formatter `printResult`
(src/main.go, lines 235-307) together with the `planHandler` tool handler
(src/main.go, lines 112-148).  Plan rows are modelled by the structure
`PlanRow`; machine integers are modelled by `Nat` (row IDs are non-negative
and far from any overflow boundary in this code).  The Go `fmt.Sprint` of a
non-negative integer is `Nat.repr`.
-/

namespace SpannerMCP

/-- Length of the decimal rendering of a non-negative integer, i.e. the Go
expression `len(fmt.Sprint(id))` of src/main.go line 253. -/
def digitLen (n : Nat) : Nat := (Nat.repr n).length

/-- A resolved child link of a plan row: `item.ChildLink.GetVariable()` and
`item.Child.GetShortRepresentation().GetDescription()` of src/main.go
lines 285-288, stored as plain fields. -/
structure ResolvedChildLink where
  VariableName : String
  ChildDescription : String
deriving DecidableEq

/-- A plan row (`plantree.RowWithPredicates`): the fields and accessor results
used by `printResult`.  `FormatIDStr` and `TextStr` hold the results of the
`FormatID()` and `Text()` accessors; `ChildLinks` is the typed child-link map,
modelled as an association list. -/
structure PlanRow where
  ID : Nat
  FormatIDStr : String
  TextStr : String
  Predicates : List String
  ChildLinks : List (String × List ResolvedChildLink)
deriving DecidableEq

/-- `strings.Repeat(" ", n)`. -/
def spaces (n : Nat) : String := String.mk (List.replicate n ' ')

/-- Right-justification of `s` in a field of width `w`, space-padded
(no truncation when `s` is longer), as done by `fmt.Sprintf` width flags. -/
def padLeftTo (w : Nat) (s : String) : String := spaces (w - s.length) ++ s

/-- Left-justification of `s` in a field of width `w`, space-padded. -/
def padRightTo (w : Nat) (s : String) : String := s ++ spaces (w - s.length)

/-- `fmt.Sprintf("%*d:", w, id)` of src/main.go lines 264 and 279. -/
def fmtIDColon (w : Nat) (idv : Nat) : String := padLeftTo w (Nat.repr idv) ++ ":"

/-- The `maxIDLength` computation of src/main.go lines 251-256: a running
maximum of `len(fmt.Sprint(row.ID))` over the rows, starting from 0. -/
def maxIDLength (rows : List PlanRow) : Nat :=
  rows.foldl (fun acc row => if digitLen row.ID > acc then digitLen row.ID else acc) 0

/-- The predicate lines contributed by one row (src/main.go lines 261-269):
the line for the predicate at index 0 gets the `%*d:` ID prefix, later ones
get `maxIDLength+1` blanks; each line is `prefix ++ " " ++ predicate`. -/
def predLinesOfRow (m : Nat) (row : PlanRow) : List String :=
  row.Predicates.enum.map (fun ip =>
    (if ip.1 = 0 then fmtIDColon m row.ID else spaces (m + 1)) ++ " " ++ ip.2)

/-- Rendering of one resolved child link (src/main.go lines 285-289). -/
def renderChildLink (item : ResolvedChildLink) : String :=
  if item.VariableName ≠ "" then
    "$" ++ item.VariableName ++ "=" ++ item.ChildDescription
  else
    item.ChildDescription

/-- `strings.Join(..., ", ")` over the rendered links of one type
(src/main.go lines 284-290). -/
def joinChildLinks (links : List ResolvedChildLink) : String :=
  String.intercalate ", " (links.map renderChildLink)

/-- `lox.EntriesSortedByKey(row.ChildLinks)` (src/main.go line 272): the
entries of the child-link map sorted by key. -/
def entriesSortedByKey (cl : List (String × List ResolvedChildLink)) :
    List (String × List ResolvedChildLink) :=
  cl.mergeSort (fun a b => decide (a.1 ≤ b.1))

/-- The child-link loop body of src/main.go lines 271-297 for one row: `i`
counts the lines produced so far for this row; an empty type key is skipped;
an empty joined description is skipped without advancing `i`. -/
def childLinkLoop (m idv : Nat) :
    Nat → List (String × List ResolvedChildLink) → List String
  | _, [] => []
  | i, (typ, links) :: rest =>
    if typ = "" then childLinkLoop m idv i rest
    else
      let pfx := if i = 0 then fmtIDColon m idv else spaces (m + 1)
      let join := joinChildLinks links
      if join = "" then childLinkLoop m idv i rest
      else
        let typePartStr := if typ ≠ "" then typ ++ ": " else ""
        (pfx ++ " " ++ typePartStr ++ join) :: childLinkLoop m idv (i + 1) rest

/-- The child-link description lines contributed by one row: the loop of
src/main.go lines 271-297 run over the key-sorted entries with the per-row
counter starting at 0. -/
def childLinkLinesOfRow (m : Nat) (row : PlanRow) : List String :=
  childLinkLoop m row.ID 0 (entriesSortedByKey row.ChildLinks)

/-- The accumulation loop of src/main.go lines 258-298: the `predicates` and
`parameters` slices, each extended row by row in order. -/
def collectLines (m : Nat) : List PlanRow → List String × List String
  | [] => ([], [])
  | row :: rest =>
    let tail := collectLines m rest
    (predLinesOfRow m row ++ tail.1, childLinkLinesOfRow m row ++ tail.2)

/-- Sequential concatenation of strings, as produced by repeated
`WriteString` calls on one `strings.Builder`. -/
def concatStrings : List String → String
  | [] => ""
  | s :: rest => s ++ concatStrings rest

/-- Modelled from the spec: the two-column table drawn by the external
`tablewriter` dependency (not part of this repository's sources), configured
in src/main.go lines 237-246 with header "ID"/"Operator", a right-aligned
first column and a left-aligned second column.  Per the spec the output is
newline-delimited; the model emits a border line, the header line, a border
line, one line per row, and a closing border line. -/
def tableLines (rows : List PlanRow) : List String :=
  let w1 := rows.foldl (fun acc r => max acc r.FormatIDStr.length) (String.length "ID")
  let w2 := rows.foldl (fun acc r => max acc r.TextStr.length) (String.length "Operator")
  let border := "+" ++ String.mk (List.replicate (w1 + 2) '-') ++ "+" ++
    String.mk (List.replicate (w2 + 2) '-') ++ "+"
  let headerLine := "| " ++ padRightTo w1 "ID" ++ " | " ++ padRightTo w2 "Operator" ++ " |"
  border :: headerLine :: border ::
    (rows.map (fun r =>
      "| " ++ padLeftTo w1 r.FormatIDStr ++ " | " ++ padRightTo w2 r.TextStr ++ " |") ++
     [border])

/-- Modelled from the spec: the full text written into the builder by
`table.Render()` — every table line terminated by a newline. -/
def renderTable (rows : List PlanRow) : String :=
  concatStrings ((tableLines rows).map (fun l => l ++ "\n"))

/-- The guarded `table.Render()` of src/main.go lines 247-249: the table text
is written only when the row sequence is non-empty. -/
def tableOutput (rows : List PlanRow) : String :=
  if 0 < rows.length then renderTable rows else ""

/-- The predicate section of src/main.go lines 300-305: emitted only when at
least one predicate line was accumulated; the header line, then each
accumulated line written as `" %s\n"`. -/
def predicateSection (preds : List String) : String :=
  if 0 < preds.length then
    "Predicates(identified by ID):\n" ++
      concatStrings (preds.map (fun s => " " ++ s ++ "\n"))
  else ""

/-- `printResult` (src/main.go lines 235-307): the builder receives the table
output and then the predicate section; the accumulated `parameters` lines are
computed but never written.  The second component is the Go `error` result,
which the function always returns as `nil`. -/
def printResult (rows : List PlanRow) : String × Option String :=
  let m := maxIDLength rows
  let acc := collectLines m rows
  (tableOutput rows ++ predicateSection acc.1, none)

/-- A row with its `ChildLinks` erased; every other field is kept. -/
def dropChildLinks (r : PlanRow) : PlanRow :=
  { r with ChildLinks := [] }

/-- The decoded argument structure of the `plan` tool handler
(src/main.go lines 113-118). -/
structure PlanRequest where
  Query : String
  Project : String
  InstanceID : String
  Database : String
deriving DecidableEq

/-- The zero value returned by `mapToStruct` together with a decode error
(src/main.go lines 24-31): every string field is empty. -/
def planRequestZero : PlanRequest := ⟨"", "", "", ""⟩

/-- `databasePath` (src/main.go lines 231-233). -/
def databasePath (project inst db : String) : String :=
  "projects/" ++ project ++ "/instances/" ++ inst ++ "/databases/" ++ db

/-- The first externally visible action taken by `planHandler` after argument
decoding: either it creates the Spanner client for a database path and query,
or it short-circuits by returning an error to the caller. -/
inductive PlanHandlerStep where
  | createClient (dbPath : String) (query : String)
  | returnErr (e : String)
deriving DecidableEq

/-- The control flow of `planHandler` from the `mapToStruct` call up to the
`spanner.NewClient` call (src/main.go lines 112-120), as a function of the
decode result.  On decode failure `mapToStruct` returns its zero value and
the error (lines 24-31); line 120 overwrites the error without checking it,
so the handler always proceeds to create the client from `req`. -/
def planHandler (decoded : Except String PlanRequest) : PlanHandlerStep :=
  let req := match decoded with
    | .ok r => r
    | .error _ => planRequestZero
  PlanHandlerStep.createClient
    (databasePath req.Project req.InstanceID req.Database) req.Query

end SpannerMCP

namespace SpannerMCP

/-- `Nat.toDigitsCore` ignores its fuel argument as long as the fuel exceeds
the number being converted. -/
lemma toDigitsCore_fuel_eq (b : Nat) (hb : 1 < b) :
    ∀ (n f g : Nat) (l : List Char), n < f → n < g →
      Nat.toDigitsCore b f n l = Nat.toDigitsCore b g n l := by
  intro n
  induction n using Nat.strong_induction_on with
  | _ n ih =>
    intro f g l hf hg
    cases f with
    | zero => omega
    | succ f =>
      cases g with
      | zero => omega
      | succ g =>
        simp only [Nat.toDigitsCore]
        by_cases h : n / b = 0
        · simp [h]
        · simp only [h, if_false]
          have hn : 0 < n := by
            rcases Nat.eq_zero_or_pos n with h0 | h0
            · exact absurd (h0 ▸ Nat.zero_div b) h
            · exact h0
          have hdiv : n / b < n := Nat.div_lt_self hn hb
          exact ih (n / b) hdiv f g _ (by omega) (by omega)

/-- A number below ten prints as a single digit. -/
lemma digitLen_lt_ten {n : Nat} (h : n < 10) : digitLen n = 1 := by
  have h0 : n / 10 = 0 := Nat.div_eq_of_lt h
  show (Nat.toDigitsCore 10 (n + 1) n []).length = 1
  simp [Nat.toDigitsCore, h0]

/-- A number of at least ten prints with one more digit than its quotient by
ten. -/
lemma digitLen_ge_ten {n : Nat} (h : 10 ≤ n) : digitLen n = digitLen (n / 10) + 1 := by
  have hn : 0 < n := by omega
  have h0 : ¬ n / 10 = 0 := by
    have : 10 / 10 ≤ n / 10 := Nat.div_le_div_right h
    omega
  have e1 : digitLen n = (Nat.toDigitsCore 10 n (n / 10) [Nat.digitChar (n % 10)]).length := by
    show (Nat.toDigitsCore 10 (n + 1) n []).length = _
    simp [Nat.toDigitsCore, h0]
  rw [e1, Nat.toDigitsCore_lens_eq]
  have e2 : Nat.toDigitsCore 10 n (n / 10) [] = Nat.toDigitsCore 10 (n / 10 + 1) (n / 10) [] :=
    toDigitsCore_fuel_eq 10 (by omega) (n / 10) n (n / 10 + 1) []
      (Nat.div_lt_self hn (by omega)) (Nat.lt_succ_self _)
  rw [e2]
  rfl

/-- Every number prints with at least one digit. -/
lemma digitLen_pos (n : Nat) : 1 ≤ digitLen n := by
  rcases Nat.lt_or_ge n 10 with h | h
  · rw [digitLen_lt_ten h]
  · rw [digitLen_ge_ten h]
    omega

/-- The printed digit count is monotone in the number. -/
lemma digitLen_le_digitLen : ∀ b a : Nat, a ≤ b → digitLen a ≤ digitLen b := by
  intro b
  induction b using Nat.strong_induction_on with
  | _ b ih =>
    intro a hab
    rcases Nat.lt_or_ge b 10 with hb | hb
    · rw [digitLen_lt_ten (by omega), digitLen_lt_ten hb]
    · rcases Nat.lt_or_ge a 10 with ha | ha
      · rw [digitLen_lt_ten ha, digitLen_ge_ten hb]
        omega
      · rw [digitLen_ge_ten ha, digitLen_ge_ten hb]
        have hle : a / 10 ≤ b / 10 := Nat.div_le_div_right hab
        have hlt : b / 10 < b := Nat.div_lt_self (by omega) (by omega)
        exact Nat.add_le_add_right (ih (b / 10) hlt (a / 10) hle) 1

/-- The digit count of a maximum is the maximum of the digit counts. -/
lemma digitLen_max (a b : Nat) : digitLen (max a b) = max (digitLen a) (digitLen b) := by
  rcases Nat.le_total a b with h | h
  · rw [Nat.max_eq_right h, Nat.max_eq_right (digitLen_le_digitLen b a h)]
  · rw [Nat.max_eq_left h, Nat.max_eq_left (digitLen_le_digitLen a b h)]

/-- The running "keep the larger" update of src/main.go lines 253-255 is the
binary maximum. -/
lemma if_gt_eq_max (a x : Nat) : (if x > a then x else a) = max a x := by
  by_cases h : x > a
  · simp only [h, if_true]
    omega
  · simp only [h, if_false]
    omega

/-- A left fold of the running maximum equals the seed joined with the right
fold of `max`. -/
lemma foldl_max_eq : ∀ (l : List Nat) (a : Nat),
    l.foldl (fun acc x => if x > acc then x else acc) a = max a (l.foldr max 0) := by
  intro l
  induction l with
  | nil =>
    intro a
    simp
  | cons x l ih =>
    intro a
    simp only [List.foldl_cons, List.foldr_cons]
    rw [if_gt_eq_max, ih, Nat.max_assoc]

/-- Mapping the digit count through a right fold of `max` over a non-empty
list commutes. -/
lemma map_digitLen_foldr_max : ∀ l : List Nat, l ≠ [] →
    (l.map digitLen).foldr max 0 = digitLen (l.foldr max 0) := by
  intro l
  induction l with
  | nil =>
    intro h
    exact absurd rfl h
  | cons x l ih =>
    intro _
    cases l with
    | nil => simp
    | cons y l' =>
      simp only [List.map_cons, List.foldr_cons] at ih ⊢
      rw [ih (by simp), ← digitLen_max]

/-- C3: `maxIDLength` is the maximum decimal-digit length of `ID` over all
rows (0 for the empty sequence), and for a non-empty sequence it equals the
digit count of the largest `ID`. -/
theorem maxIDLength_correct (rows : List PlanRow) :
    maxIDLength rows = (rows.map (fun r => digitLen r.ID)).foldr max 0
    ∧ (rows ≠ [] →
        maxIDLength rows = digitLen ((rows.map (fun r => r.ID)).foldr max 0)) := by
  have key : maxIDLength rows = (rows.map (fun r => digitLen r.ID)).foldr max 0 := by
    unfold maxIDLength
    rw [← List.foldl_map (fun r => digitLen r.ID) (fun acc x => if x > acc then x else acc)
      rows 0]
    rw [foldl_max_eq, Nat.zero_max]
  refine ⟨key, fun hne => ?_⟩
  rw [key]
  have hmm : rows.map (fun r => digitLen r.ID) = (rows.map (fun r => r.ID)).map digitLen := by
    simp [List.map_map, Function.comp]
  rw [hmm]
  exact map_digitLen_foldr_max (rows.map (fun r => r.ID)) (by simpa using hne)

/-- C3 witness: rows with IDs 1, 2 and 15 give `maxIDLength = 2`, the digit
count of the largest ID. -/
theorem maxIDLength_correct_witness :
    maxIDLength
        [{ ID := 1, FormatIDStr := "1", TextStr := "", Predicates := [], ChildLinks := [] },
         { ID := 2, FormatIDStr := "2", TextStr := "", Predicates := [], ChildLinks := [] },
         { ID := 15, FormatIDStr := "15", TextStr := "", Predicates := [], ChildLinks := [] }] =
      2 := by
  have h := (maxIDLength_correct
    [{ ID := 1, FormatIDStr := "1", TextStr := "", Predicates := [], ChildLinks := [] },
     { ID := 2, FormatIDStr := "2", TextStr := "", Predicates := [], ChildLinks := [] },
     { ID := 15, FormatIDStr := "15", TextStr := "", Predicates := [], ChildLinks := [] }]).2
    (by simp)
  exact h.trans (by decide)

/-- C2: for a row with `ID = 3`, `maxIDLength = 2` and predicates
`["p = 1", "q > 2"]`, the accumulated predicate lines are exactly
`" 3: p = 1"` and `"    q > 2"`: the first predicate gets the ID
right-justified to 2 digits plus a colon as prefix, and each line is the
prefix, one space, and the predicate. -/
theorem predLines_row3_example :
    predLinesOfRow 2
        { ID := 3, FormatIDStr := "3", TextStr := "Scan",
          Predicates := ["p = 1", "q > 2"], ChildLinks := [] } =
      [" 3: p = 1", "    q > 2"] := by
  decide

/-- C4: for the empty row sequence the tree-table component contributes the
empty string, and the overall report returned by `printResult` is the empty
string. -/
theorem printResult_empty :
    tableOutput [] = "" ∧ (printResult []).1 = "" := by
  exact ⟨rfl, rfl⟩

/-- Erasing child links does not change the rendered table. -/
lemma tableLines_dropChildLinks (rows : List PlanRow) :
    tableLines (rows.map dropChildLinks) = tableLines rows := by
  simp [tableLines, List.foldl_map, List.map_map, dropChildLinks, Function.comp]

/-- Erasing child links does not change the guarded table output. -/
lemma tableOutput_dropChildLinks (rows : List PlanRow) :
    tableOutput (rows.map dropChildLinks) = tableOutput rows := by
  unfold tableOutput renderTable
  rw [tableLines_dropChildLinks, List.length_map]

/-- Erasing child links does not change the computed ID width. -/
lemma maxIDLength_dropChildLinks (rows : List PlanRow) :
    maxIDLength (rows.map dropChildLinks) = maxIDLength rows := by
  simp [maxIDLength, List.foldl_map, dropChildLinks]

/-- Erasing child links does not change the accumulated predicate lines. -/
lemma collectLines_fst_dropChildLinks (m : Nat) :
    ∀ rows : List PlanRow,
      (collectLines m (rows.map dropChildLinks)).1 = (collectLines m rows).1 := by
  intro rows
  induction rows with
  | nil => rfl
  | cons r rs ih =>
    show predLinesOfRow m (dropChildLinks r) ++ (collectLines m (rs.map dropChildLinks)).1
        = predLinesOfRow m r ++ (collectLines m rs).1
    rw [ih]
    rfl

/-- C1: the report returned by `printResult` is the tree-table output
followed, exactly when at least one predicate line was accumulated, by the
`"Predicates(identified by ID):"` header and the predicate lines each
prefixed with one leading space; the child-link description lines never
appear (erasing all child links leaves the report unchanged), and a
non-empty row sequence with no predicate lines yields exactly the rendered
table. -/
theorem printResult_report (rows : List PlanRow) :
    ((printResult rows).1 =
      tableOutput rows ++
        (if 0 < (collectLines (maxIDLength rows) rows).1.length then
          "Predicates(identified by ID):\n" ++
            concatStrings ((collectLines (maxIDLength rows) rows).1.map
              (fun s => " " ++ s ++ "\n"))
        else ""))
    ∧ (printResult rows).1 = (printResult (rows.map dropChildLinks)).1
    ∧ (0 < rows.length → (collectLines (maxIDLength rows) rows).1 = [] →
        (printResult rows).1 = renderTable rows) := by
  have h1 : (printResult rows).1 =
      tableOutput rows ++ predicateSection (collectLines (maxIDLength rows) rows).1 := rfl
  refine ⟨h1, ?_, ?_⟩
  · have h2 : (printResult (rows.map dropChildLinks)).1 =
        tableOutput (rows.map dropChildLinks) ++
          predicateSection (collectLines (maxIDLength (rows.map dropChildLinks))
            (rows.map dropChildLinks)).1 := rfl
    rw [h1, h2, maxIDLength_dropChildLinks, collectLines_fst_dropChildLinks,
      tableOutput_dropChildLinks]
  · intro hlen hpred
    rw [h1, hpred]
    have h3 : predicateSection [] = "" := rfl
    rw [h3, String.append_empty]
    unfold tableOutput
    rw [if_pos hlen]

/-- C1 witness: a one-row plan with no predicates reports exactly the
rendered table. -/
theorem printResult_report_witness :
    (printResult
        [{ ID := 1, FormatIDStr := "1", TextStr := "Scan", Predicates := [],
           ChildLinks := [] }]).1 =
      renderTable
        [{ ID := 1, FormatIDStr := "1", TextStr := "Scan", Predicates := [],
           ChildLinks := [] }] :=
  (printResult_report
    [{ ID := 1, FormatIDStr := "1", TextStr := "Scan", Predicates := [],
       ChildLinks := [] }]).2.2 (by decide) (by decide)

/-- The accumulated predicate lines are the per-row predicate lines in row
order. -/
lemma collectLines_fst_flatMap (m : Nat) :
    ∀ rows : List PlanRow,
      (collectLines m rows).1 = rows.flatMap (fun row => predLinesOfRow m row) := by
  intro rows
  induction rows with
  | nil => rfl
  | cons r rs ih =>
    show predLinesOfRow m r ++ (collectLines m rs).1 = _
    rw [ih]
    rfl

/-- From a non-zero starting index on, every enumerated predicate gets the
blank continuation prefix. -/
lemma enumFrom_map_blanks (A B : String) :
    ∀ (ps : List String) (k : Nat), k ≠ 0 →
      (List.enumFrom k ps).map
          (fun ip => (if ip.1 = 0 then A else B) ++ " " ++ ip.2) =
        ps.map (fun s => B ++ " " ++ s) := by
  intro ps
  induction ps with
  | nil =>
    intro k hk
    rfl
  | cons p ps ih =>
    intro k hk
    rw [List.enumFrom_cons]
    simp only [List.map_cons]
    rw [if_neg hk, ih (k + 1) (by omega)]

/-- The predicate lines of one row: the first predicate carries the ID
prefix, every later one the blank prefix. -/
lemma predLinesOfRow_cons (m : Nat) (row : PlanRow) (p : String) (ps : List String)
    (h : row.Predicates = p :: ps) :
    predLinesOfRow m row =
      (fmtIDColon m row.ID ++ " " ++ p) :: ps.map (fun s => spaces (m + 1) ++ " " ++ s) := by
  unfold predLinesOfRow
  rw [h, List.enum_cons]
  simp only [List.map_cons]
  rw [if_pos trivial,
    enumFrom_map_blanks (fmtIDColon m row.ID) (spaces (m + 1)) ps 1 (by omega)]

/-- C5: the "have we shown the ID yet" state restarts for every row and the
predicate pass is independent of the child-link pass: the accumulated
predicate lines are the rows' predicate lines in order, unchanged when all
child links are erased; within one row the first predicate line carries the
ID prefix and later lines carry `maxIDLength+1` blanks; and two consecutive
rows with one predicate each produce two lines, each with its own row's ID
prefix. -/
theorem predicate_state_restarts (m : Nat) (rows : List PlanRow) :
    ((collectLines m rows).1 = rows.flatMap (fun row => predLinesOfRow m row))
    ∧ ((collectLines m rows).1 = (collectLines m (rows.map dropChildLinks)).1)
    ∧ (∀ (row : PlanRow) (p : String) (ps : List String), row.Predicates = p :: ps →
        predLinesOfRow m row =
          (fmtIDColon m row.ID ++ " " ++ p) ::
            ps.map (fun s => spaces (m + 1) ++ " " ++ s))
    ∧ (∀ (r1 r2 : PlanRow) (p q : String), r1.Predicates = [p] → r2.Predicates = [q] →
        (collectLines m [r1, r2]).1 =
          [fmtIDColon m r1.ID ++ " " ++ p, fmtIDColon m r2.ID ++ " " ++ q]) := by
  refine ⟨collectLines_fst_flatMap m rows, (collectLines_fst_dropChildLinks m rows).symm,
    fun row p ps h => predLinesOfRow_cons m row p ps h, fun r1 r2 p q h1 h2 => ?_⟩
  rw [collectLines_fst_flatMap m [r1, r2]]
  show predLinesOfRow m r1 ++ (predLinesOfRow m r2 ++ []) = _
  rw [predLinesOfRow_cons m r1 p [] h1, predLinesOfRow_cons m r2 q [] h2]
  simp

/-- C5 witness: two one-predicate rows give two lines, each with its own ID
prefix. -/
theorem predicate_state_restarts_witness :
    (collectLines 1
        [{ ID := 1, FormatIDStr := "1", TextStr := "", Predicates := ["a=b"],
           ChildLinks := [] },
         { ID := 2, FormatIDStr := "2", TextStr := "", Predicates := ["c=d"],
           ChildLinks := [] }]).1 =
      ["1: a=b", "2: c=d"] := by
  have h := (predicate_state_restarts 1
    [{ ID := 1, FormatIDStr := "1", TextStr := "", Predicates := ["a=b"],
       ChildLinks := [] },
     { ID := 2, FormatIDStr := "2", TextStr := "", Predicates := ["c=d"],
       ChildLinks := [] }]).2.2.2
    { ID := 1, FormatIDStr := "1", TextStr := "", Predicates := ["a=b"], ChildLinks := [] }
    { ID := 2, FormatIDStr := "2", TextStr := "", Predicates := ["c=d"], ChildLinks := [] }
    "a=b" "c=d" rfl rfl
  exact h.trans (by decide)

/-- C6: a child link renders as `"$" ++ VariableName ++ "=" ++
ChildDescription` when the variable is non-empty and as the bare description
otherwise; the per-link strings of a type are joined in original order with
`", "`; and a type whose joined result is empty produces no line and does not
advance the per-row counter. -/
theorem childLink_rendering (m idv i : Nat) (v d typ : String)
    (links : List ResolvedChildLink) (rest : List (String × List ResolvedChildLink)) :
    (v ≠ "" → renderChildLink ⟨v, d⟩ = "$" ++ v ++ "=" ++ d)
    ∧ renderChildLink ⟨"", d⟩ = d
    ∧ renderChildLink ⟨"x", "Scan(Table: T)"⟩ = "$x=Scan(Table: T)"
    ∧ joinChildLinks links = String.intercalate ", " (links.map renderChildLink)
    ∧ (joinChildLinks links = "" →
        childLinkLoop m idv i ((typ, links) :: rest) = childLinkLoop m idv i rest) := by
  refine ⟨fun hv => ?_, ?_, ?_, rfl, fun hj => ?_⟩
  · simp [renderChildLink, hv]
  · simp [renderChildLink]
  · decide
  · by_cases ht : typ = ""
    · simp [childLinkLoop, ht]
    · simp [childLinkLoop, ht, hj]

/-- C6 witness: a named link renders with the `$var=` form, and a type whose
links join to the empty string produces no line. -/
theorem childLink_rendering_witness :
    renderChildLink ⟨"x", "y"⟩ = "$x=y" ∧
    childLinkLoop 1 1 0 [("T", [])] = ([] : List String) := by
  refine ⟨(childLink_rendering 1 1 0 "x" "y" "T" [] []).1 (by decide), ?_⟩
  exact ((childLink_rendering 1 1 0 "x" "y" "T" [] []).2.2.2.2 rfl).trans rfl

/-- The child-link loop ignores entries whose type key is the empty string,
whatever links they contain. -/
lemma childLinkLoop_filter (m idv : Nat) :
    ∀ (es : List (String × List ResolvedChildLink)) (i : Nat),
      childLinkLoop m idv i es =
        childLinkLoop m idv i (es.filter (fun e => e.1 ≠ "")) := by
  intro es
  induction es with
  | nil =>
    intro i
    rfl
  | cons e rest ih =>
    intro i
    obtain ⟨typ, links⟩ := e
    by_cases ht : typ = ""
    · subst ht
      simp [childLinkLoop, List.filter_cons, ih i]
    · by_cases hj : joinChildLinks links = ""
      · simp [childLinkLoop, List.filter_cons, ht, hj, ih i]
      · simp [childLinkLoop, List.filter_cons, ht, hj, ih i, ih (i + 1)]

/-- C7: the child-link pass visits the link-type entries in key-sorted
(lexicographic) order — the visited entry list is sorted by key and is a
permutation of the association list — and entries with the empty-string key
are always skipped, whatever links they contain. -/
theorem childLinks_visit_order (m idv i : Nat)
    (cl : List (String × List ResolvedChildLink)) :
    List.Pairwise (fun a b => a.1 ≤ b.1) (entriesSortedByKey cl)
    ∧ (entriesSortedByKey cl).Perm cl
    ∧ (∀ es : List (String × List ResolvedChildLink),
        childLinkLoop m idv i es =
          childLinkLoop m idv i (es.filter (fun e => e.1 ≠ ""))) := by
  refine ⟨?_, List.mergeSort_perm cl _, fun es => childLinkLoop_filter m idv es i⟩
  have htrans : ∀ (a b c : String × List ResolvedChildLink),
      decide (a.1 ≤ b.1) = true → decide (b.1 ≤ c.1) = true →
        decide (a.1 ≤ c.1) = true := by
    intro a b c hab hbc
    exact decide_eq_true (le_trans (of_decide_eq_true hab) (of_decide_eq_true hbc))
  have htotal : ∀ (a b : String × List ResolvedChildLink),
      (decide (a.1 ≤ b.1) || decide (b.1 ≤ a.1)) = true := by
    intro a b
    rcases le_total a.1 b.1 with h | h <;> simp [h]
  have hs := List.sorted_mergeSort htrans htotal cl
  exact hs.imp (fun hab => of_decide_eq_true hab)

/-- C8: `printResult` never fails: the error component of its result is
always `nil`. -/
theorem printResult_never_errors (rows : List PlanRow) :
    (printResult rows).2 = none := rfl

/-- Appending a newline-terminated string keeps the result
newline-terminated. -/
lemma endsNL_append (a b : String) (h : b.data.getLast? = some '\x0a') :
    (a ++ b).data.getLast? = some '\x0a' := by
  rw [String.data_append, List.getLast?_append, h]
  rfl

/-- A string with an explicit trailing newline is newline-terminated. -/
lemma endsNL_newline (s : String) : (s ++ "\n").data.getLast? = some '\x0a' :=
  endsNL_append s "\n" rfl

/-- The concatenation of a non-empty list of newline-terminated strings is
newline-terminated. -/
lemma concatStrings_endsNL :
    ∀ l : List String, l ≠ [] → (∀ s ∈ l, s.data.getLast? = some '\x0a') →
      (concatStrings l).data.getLast? = some '\x0a' := by
  intro l
  induction l with
  | nil =>
    intro h
    exact absurd rfl h
  | cons x rest ih =>
    intro _ hall
    cases rest with
    | nil =>
      show (x ++ concatStrings []).data.getLast? = some '\x0a'
      rw [show concatStrings ([] : List String) = "" from rfl, String.append_empty]
      exact hall x (by simp)
    | cons y rest' =>
      show (x ++ concatStrings (y :: rest')).data.getLast? = some '\x0a'
      exact endsNL_append x (concatStrings (y :: rest'))
        (ih (by simp) (fun s hs => hall s (List.mem_cons_of_mem x hs)))

/-- The rendered table always ends with a newline. -/
lemma renderTable_endsNL (rows : List PlanRow) :
    (renderTable rows).data.getLast? = some '\x0a' := by
  apply concatStrings_endsNL
  · simp [tableLines]
  · intro s hs
    obtain ⟨t, _, rfl⟩ := List.mem_map.mp hs
    exact endsNL_newline t

/-- The predicate section is empty or ends with a newline. -/
lemma predicateSection_cases (preds : List String) :
    predicateSection preds = "" ∨
      (predicateSection preds).data.getLast? = some '\x0a' := by
  unfold predicateSection
  by_cases h : 0 < preds.length
  · right
    rw [if_pos h]
    apply endsNL_append
    apply concatStrings_endsNL
    · cases preds with
      | nil => simp at h
      | cons p ps => simp
    · intro s hs
      obtain ⟨t, _, rfl⟩ := List.mem_map.mp hs
      exact endsNL_newline (" " ++ t)
  · left
    rw [if_neg h]

/-- C10: the string returned by `printResult` is either empty or ends with a
newline character. -/
theorem printResult_newline_terminated (rows : List PlanRow) :
    (printResult rows).1 = "" ∨
      ((printResult rows).1).data.getLast? = some '\x0a' := by
  have hrep : (printResult rows).1 =
      tableOutput rows ++ predicateSection (collectLines (maxIDLength rows) rows).1 := rfl
  cases rows with
  | nil =>
    left
    rfl
  | cons r rs =>
    right
    rw [hrep]
    rcases predicateSection_cases (collectLines (maxIDLength (r :: rs)) (r :: rs)).1 with
      h | h
    · rw [h, String.append_empty]
      show (tableOutput (r :: rs)).data.getLast? = some '\x0a'
      unfold tableOutput
      rw [if_pos (by simp)]
      exact renderTable_endsNL (r :: rs)
    · exact endsNL_append _ _ h

/-- C9: when decoding of the `plan` request arguments fails, the decode error
is discarded rather than returned: `planHandler` does not short-circuit with
an error but proceeds to build the database path from the zero-valued
(empty-string) request fields and create the client with it. -/
theorem planHandler_discards_decode_error (e : String) :
    planHandler (Except.error e) =
      PlanHandlerStep.createClient (databasePath "" "" "") "" ∧
    planHandler (Except.error e) ≠ PlanHandlerStep.returnErr e := by
  exact ⟨rfl, by simp [planHandler]⟩

end SpannerMCP
